import Mathlib

/-!
Verification of the amq2api gateway against its design specification.

The embedding covers the account pool (`src/account_manager.py`), the token
renewal protocol (`src/auth.py`) and the protocol-translation endpoints
(`src/main.py`).  Python lists of account records become Lean lists; the
nondeterministic inputs of the code (fresh uuids, timestamps, HTTP outcomes)
become explicit parameters; Python exceptions become `Except` values.
`load_accounts`/`save_accounts` round-trip through `account.json`, so the
in-memory list is the observable pool state and reloading is the identity
whenever every mutation was persisted.
-/

namespace Amq2Api

/-- Account record, from the dataclass `Account` in account_manager.py
(fields exactly as in the source; the source has no last-refresh
timestamp or outcome field). -/
structure Account where
  id : String
  refresh_token : String
  client_id : String
  client_secret : String
  profile_arn : Option String := none
  name : Option String := none
  is_active : Bool := false
  created_at : String := ""
  deriving DecidableEq

/-- AccountManager.get_account_by_id: first account whose id matches. -/
def get_account_by_id (accounts : List Account) (account_id : String) : Option Account :=
  accounts.find? (fun acc => acc.id == account_id)

/-- AccountManager.get_active_account: the first account flagged active,
else the first account of a non-empty pool. -/
def get_active_account (accounts : List Account) : Option Account :=
  match accounts.find? (fun acc => acc.is_active) with
  | some acc => some acc
  | none => accounts.head?

/-- AccountManager.add_account.  The fresh uuid and the creation timestamp
are nondeterministic, so they are passed in as `account_id` and
`created_at`.  The first-ever account is auto-activated; a missing or
empty name defaults to an ordinal label. -/
def add_account (accounts : List Account)
    (refresh_token client_id client_secret : String)
    (profile_arn name : Option String)
    (account_id created_at : String) : List Account × Account :=
  let is_active := accounts.length == 0
  let defaultName : String := "账号 " ++ toString (accounts.length + 1)
  let finalName : String :=
    match name with
    | some n => if n == "" then defaultName else n
    | none => defaultName
  let account : Account :=
    { id := account_id, refresh_token := refresh_token, client_id := client_id,
      client_secret := client_secret, profile_arn := profile_arn,
      name := some finalName, is_active := is_active, created_at := created_at }
  (accounts ++ [account], account)

/-- The statement `self.accounts[0].is_active = True` of delete_account. -/
def setFirstActive : List Account → List Account
  | [] => []
  | a :: rest => { a with is_active := true } :: rest

/-- AccountManager.delete_account: removes the first account equal to the
one found by id (Python `list.remove`); if the removed account was active
and accounts remain, re-activates the new first account. -/
def delete_account (accounts : List Account) (account_id : String) :
    List Account × Bool :=
  match get_account_by_id accounts account_id with
  | none => (accounts, false)
  | some account =>
    let remaining := accounts.erase account
    let final :=
      if account.is_active && !remaining.isEmpty then setFirstActive remaining
      else remaining
    (final, true)

/-- The loop of activate_account that clears every active flag. -/
def deactivateAll (accounts : List Account) : List Account :=
  accounts.map (fun acc => { acc with is_active := false })

/-- Flag the first account with the given id active (the object returned by
get_account_by_id is the first match in the list). -/
def setActiveById : List Account → String → List Account
  | [], _ => []
  | a :: rest, i =>
    if a.id == i then { a with is_active := true } :: rest
    else a :: setActiveById rest i

/-- AccountManager.activate_account: deactivates all accounts, then
activates the target; no change if the id is absent. -/
def activate_account (accounts : List Account) (account_id : String) :
    List Account × Bool :=
  match get_account_by_id accounts account_id with
  | some _ => (setActiveById (deactivateAll accounts) account_id, true)
  | none => (accounts, false)

/-- One pool mutation of the account-management API. -/
inductive PoolOp where
  | add (refresh_token client_id client_secret : String)
      (profile_arn name : Option String) (account_id created_at : String)
  | activate (account_id : String)
  | delete (account_id : String)
  deriving DecidableEq

def applyOp (accounts : List Account) : PoolOp → List Account
  | .add rt ci cs pa n aid ca => (add_account accounts rt ci cs pa n aid ca).fst
  | .activate i => (activate_account accounts i).fst
  | .delete i => (delete_account accounts i).fst

def applyOps (accounts : List Account) (ops : List PoolOp) : List Account :=
  ops.foldl applyOp accounts

/-- Number of accounts flagged active. -/
def activeCount (accounts : List Account) : Nat :=
  accounts.countP (fun acc => acc.is_active)

theorem activeCount_nil : activeCount [] = 0 := rfl

theorem activeCount_cons (a : Account) (rest : List Account) :
    activeCount (a :: rest) =
      (if a.is_active then 1 else 0) + activeCount rest := by
  simp [activeCount, List.countP_cons]
  cases a.is_active <;> simp [Nat.add_comm]

theorem activeCount_append (l₁ l₂ : List Account) :
    activeCount (l₁ ++ l₂) = activeCount l₁ + activeCount l₂ := by
  simp [activeCount, List.countP_append]

theorem activeCount_deactivateAll (accounts : List Account) :
    activeCount (deactivateAll accounts) = 0 := by
  induction accounts with
  | nil => rfl
  | cons a rest ih =>
    simp [deactivateAll] at ih ⊢
    simpa [activeCount_cons] using ih

theorem activeCount_setFirstActive (a : Account) (rest : List Account) :
    activeCount (setFirstActive (a :: rest)) = 1 + activeCount rest := by
  simp [setFirstActive, activeCount_cons]

/-- Erasing a member splits the active count by the flag of that member. -/
theorem activeCount_erase (accounts : List Account) (a : Account)
    (h : a ∈ accounts) :
    activeCount accounts =
      activeCount (accounts.erase a) + (if a.is_active then 1 else 0) := by
  induction accounts with
  | nil => cases h
  | cons b rest ih =>
    by_cases hba : b = a
    · subst hba
      simp [List.erase_cons_head, activeCount_cons, Nat.add_comm]
    · have hmem : a ∈ rest := by
        cases List.mem_cons.mp h with
        | inl h' => exact absurd h'.symm hba
        | inr h' => exact h'
      have hbeq : (b == a) = false := by
        simp [hba]
      rw [List.erase_cons, hbeq]
      simp only [Bool.false_eq_true, if_false, activeCount_cons]
      rw [ih hmem, Nat.add_assoc]

theorem setActiveById_deactivateAll_count (accounts : List Account)
    (i : String) (h : (accounts.find? (fun acc => acc.id == i)).isSome) :
    activeCount (setActiveById (deactivateAll accounts) i) = 1 := by
  induction accounts with
  | nil => simp [List.find?] at h
  | cons a rest ih =>
    by_cases hid : (a.id == i) = true
    · simp [deactivateAll, setActiveById, hid, activeCount_cons]
      have := activeCount_deactivateAll rest
      simpa [deactivateAll] using this
    · have hfind : (rest.find? (fun acc => acc.id == i)).isSome := by
        simpa [List.find?, hid] using h
      simp [deactivateAll, setActiveById, hid, activeCount_cons]
      simpa [deactivateAll] using ih hfind

/-- Every account flagged active after `setActiveById (deactivateAll _) i`
has id `i`. -/
theorem setActiveById_deactivateAll_ids (accounts : List Account)
    (i : String) (b : Account)
    (hb : b ∈ setActiveById (deactivateAll accounts) i)
    (hact : b.is_active = true) : b.id = i := by
  induction accounts with
  | nil => simp [deactivateAll, setActiveById] at hb
  | cons a rest ih =>
    by_cases hid : (a.id == i) = true
    · simp [deactivateAll, setActiveById, hid] at hb
      cases hb with
      | inl h' =>
        subst h'
        simpa using hid
      | inr h' =>
        obtain ⟨c, _, hcb⟩ := h'
        rw [← hcb] at hact
        simp at hact
    · simp [deactivateAll, setActiveById, hid] at hb
      cases hb with
      | inl h' =>
        subst h'
        simp at hact
      | inr h' =>
        exact ih (by simpa [deactivateAll] using h')

/-- Pool-invariant preservation for a single operation. -/
theorem applyOp_invariant (accounts : List Account) (op : PoolOp)
    (h : accounts ≠ [] → activeCount accounts = 1) :
    applyOp accounts op ≠ [] → activeCount (applyOp accounts op) = 1 := by
  intro hne
  cases op with
  | add rt ci cs pa n aid ca =>
    by_cases hacc : accounts = []
    · subst hacc
      simp [applyOp, add_account, activeCount_append, activeCount_cons,
        activeCount_nil]
    · have h1 := h hacc
      have hlen : (accounts.length == 0) = false := by
        simp [List.length_eq_zero]
        exact hacc
      simp [applyOp, add_account, hlen, activeCount_append, activeCount_cons,
        activeCount_nil, h1]
  | activate i =>
    simp only [applyOp, activate_account]
    cases hfind : get_account_by_id accounts i with
    | none =>
      simp only [applyOp, activate_account, hfind] at hne ⊢
      exact h hne
    | some a =>
      simp only
      apply setActiveById_deactivateAll_count
      simp [get_account_by_id] at hfind
      simp [List.find?_isSome]
      exact ⟨a, List.mem_of_find?_eq_some hfind, by
        have := List.find?_some hfind
        simpa using this⟩
  | delete i =>
    cases hfind : get_account_by_id accounts i with
    | none =>
      simp only [applyOp, delete_account, hfind] at hne ⊢
      exact h hne
    | some a =>
      have hmem : a ∈ accounts := by
        simp [get_account_by_id] at hfind
        exact List.mem_of_find?_eq_some hfind
      have hne' : accounts ≠ [] := by
        intro hcon; subst hcon; cases hmem
      have h1 := h hne'
      have hsplit := activeCount_erase accounts a hmem
      have hres : applyOp accounts (PoolOp.delete i) =
          (if a.is_active && !(accounts.erase a).isEmpty
           then setFirstActive (accounts.erase a) else accounts.erase a) := by
        simp [applyOp, delete_account, hfind]
      rw [hres] at hne ⊢
      by_cases hact : a.is_active = true
      · rw [hact] at hsplit
        simp at hsplit
        have hrem : activeCount (accounts.erase a) = 0 := by omega
        cases hrest : accounts.erase a with
        | nil =>
          exfalso
          rw [hact] at hne
          rw [hrest] at hne
          simp at hne
        | cons b rest =>
          rw [hrest, activeCount_cons] at hrem
          rw [hact]
          cases hb : b.is_active
          · rw [hb] at hrem
            simp only [Bool.false_eq_true, if_false, Nat.zero_add] at hrem
            simp [setFirstActive, activeCount_cons, hrem]
          · rw [hb] at hrem
            simp at hrem
      · have hactf : a.is_active = false := by
          cases hab : a.is_active
          · rfl
          · exact absurd hab hact
        rw [hactf] at hsplit hne ⊢
        simp only [Bool.false_eq_true, if_false] at hsplit
        simp only [Bool.false_and, Bool.false_eq_true, if_false] at hne ⊢
        omega

/-- Pool-invariant preservation along any operation sequence. -/
theorem applyOps_invariant (ops : List PoolOp) :
    ∀ accounts : List Account, (accounts ≠ [] → activeCount accounts = 1) →
      applyOps accounts ops ≠ [] → activeCount (applyOps accounts ops) = 1 := by
  induction ops with
  | nil => intro accounts h; simpa [applyOps] using h
  | cons op rest ih =>
    intro accounts h
    have h1 := applyOp_invariant accounts op h
    simpa [applyOps] using ih (applyOp accounts op) h1

/-- Claim C1: starting from any pool satisfying the single-active invariant
(in particular from the empty pool, the initial state of the store), any finite
sequence of add/activate/delete operations leaves a non-empty pool with
exactly one active account; deleting the active account re-activates the
first surviving account in insertion order; activate leaves exactly the
target account active and every other account inactive. -/
theorem C1_pool_active_invariant :
    (∀ (accounts : List Account) (ops : List PoolOp),
        (accounts ≠ [] → activeCount accounts = 1) →
        applyOps accounts ops ≠ [] → activeCount (applyOps accounts ops) = 1) ∧
    (∀ ops : List PoolOp,
        applyOps [] ops ≠ [] → activeCount (applyOps [] ops) = 1) ∧
    (∀ (accounts : List Account) (i : String) (a b : Account)
        (rest : List Account),
        get_account_by_id accounts i = some a → a.is_active = true →
        (delete_account accounts i).fst = b :: rest → b.is_active = true) ∧
    (∀ (accounts : List Account) (i : String),
        (get_account_by_id accounts i).isSome = true →
        activeCount (activate_account accounts i).fst = 1 ∧
        ∀ b ∈ (activate_account accounts i).fst, b.is_active = true →
          b.id = i) := by
  refine ⟨?_, ?_, ?_, ?_⟩
  · intro accounts ops h
    exact applyOps_invariant ops accounts h
  · intro ops
    exact applyOps_invariant ops [] (fun hcon => absurd rfl hcon)
  · intro accounts i a b rest hfind hact hdel
    simp only [delete_account, hfind] at hdel
    rw [hact] at hdel
    cases hrest : accounts.erase a with
    | nil =>
      rw [hrest] at hdel
      simp at hdel
    | cons c cs =>
      rw [hrest] at hdel
      simp [setFirstActive] at hdel
      rw [← hdel.1]
  · intro accounts i hsome
    cases hfind : get_account_by_id accounts i with
    | none => rw [hfind] at hsome; simp at hsome
    | some a =>
      have hfind' : (accounts.find? (fun acc => acc.id == i)).isSome := by
        simpa [get_account_by_id, hfind] using hsome
      constructor
      · simp only [activate_account, hfind]
        exact setActiveById_deactivateAll_count accounts i hfind'
      · intro b hb hact
        simp only [activate_account, hfind] at hb
        exact setActiveById_deactivateAll_ids accounts i b hb hact

/-- Python slice `token[:n]`. -/
def strTake (s : String) (n : Nat) : String := ⟨s.data.take n⟩

/-- Python slice `token[-n:]`. -/
def strTakeRight (s : String) (n : Nat) : String :=
  ⟨s.data.drop (s.data.length - n)⟩

theorem strLength_append (a b : String) :
    (a ++ b).length = a.length + b.length := by
  cases a with
  | mk da =>
    cases b with
    | mk db =>
      show (da ++ db).length = da.length + db.length
      exact List.length_append da db

theorem strTake_length_le (s : String) (n : Nat) :
    (strTake s n).length ≤ n := by
  show (s.data.take n).length ≤ n
  rw [List.length_take]
  omega

theorem strTakeRight_length_le (s : String) (n : Nat) :
    (strTakeRight s n).length ≤ n := by
  show (s.data.drop (s.data.length - n)).length ≤ n
  rw [List.length_drop]
  omega

/-- Credential redaction of AccountManager.get_all_accounts: a non-empty
credential longer than 14 characters shows its first 10 and last 4
characters around "..."; a non-empty credential of at most 14 characters
becomes the fixed mask; an empty credential is left as is (the Python
truthiness guard skips it). -/
def redact_refresh_token (token : String) : String :=
  if token != "" then
    (if token.length > 14 then
      strTake token 10 ++ "..." ++ strTakeRight token 4
     else "***")
  else token

/-- Client-secret redaction of get_all_accounts: masked when non-empty. -/
def redact_client_secret (secret : String) : String :=
  if secret != "" then "***" else secret

/-- AccountManager.get_all_accounts: the listing view with sensitive fields
redacted. -/
def get_all_accounts (accounts : List Account) : List Account :=
  accounts.map (fun acc =>
    { acc with refresh_token := redact_refresh_token acc.refresh_token,
               client_secret := redact_client_secret acc.client_secret })

/-- Claim C7 counterexample: an account whose stored credential is the
empty string is listed with credential "" — the truthiness guard in
get_all_accounts skips redaction — not with the fixed mask "***" that the
claim requires for every credential of length at most 14; likewise an
empty client secret is listed unmasked as "". -/
theorem C7_counterexample :
    (get_all_accounts
        [{ id := "a1", refresh_token := "", client_id := "cid",
           client_secret := "", profile_arn := none, name := none,
           is_active := true, created_at := "t" }]).map
        (fun acc => acc.refresh_token) = [""] ∧
    (get_all_accounts
        [{ id := "a1", refresh_token := "", client_id := "cid",
           client_secret := "", profile_arn := none, name := none,
           is_active := true, created_at := "t" }]).map
        (fun acc => acc.client_secret) = [""] ∧
    ("" : String) ≠ "***" ∧ ("" : String).length ≤ 14 := by
  refine ⟨rfl, rfl, by decide, by decide⟩

/-- Claim C7 (amended): every entry of the redacted listing shows the
credential as first 10 + "..." + last 4 when its length exceeds 14, as the
fixed mask when it is non-empty of length at most 14, and as the empty
string when it is empty; the client secret is fully masked when non-empty
and shown empty otherwise; no listed credential is longer than 17
characters (at most the 10+4 revealed characters plus "...") and no listed
secret longer than the 3-character mask. -/
theorem C7_redacted_listing :
    ∀ accounts : List Account,
      List.Forall₂ (fun (a e : Account) =>
        e.id = a.id ∧ e.client_id = a.client_id ∧
        e.refresh_token.length ≤ 17 ∧ e.client_secret.length ≤ 3 ∧
        (a.refresh_token.length > 14 →
          e.refresh_token =
            strTake a.refresh_token 10 ++ "..." ++
              strTakeRight a.refresh_token 4) ∧
        (a.refresh_token ≠ "" → a.refresh_token.length ≤ 14 →
          e.refresh_token = "***") ∧
        (a.refresh_token = "" → e.refresh_token = "") ∧
        (a.client_secret ≠ "" → e.client_secret = "***") ∧
        (a.client_secret = "" → e.client_secret = ""))
        accounts (get_all_accounts accounts) := by
  intro accounts
  rw [get_all_accounts, List.forall₂_map_right_iff]
  rw [List.forall₂_same]
  intro a _
  refine ⟨rfl, rfl, ?_, ?_, ?_, ?_, ?_, ?_, ?_⟩
  · by_cases hz : a.refresh_token = ""
    · simp [redact_refresh_token, hz]
    · by_cases hlen : a.refresh_token.length > 14
      · simp only [redact_refresh_token, hz, bne_self_eq_false]
        simp only [bne_iff_ne, ne_eq, hz, not_false_eq_true, if_true, hlen,
          if_pos]
        have h1 := strTake_length_le a.refresh_token 10
        have h2 := strTakeRight_length_le a.refresh_token 4
        rw [strLength_append, strLength_append]
        have h3 : ("..." : String).length = 3 := by decide
        omega
      · simp only [redact_refresh_token, bne_iff_ne, ne_eq, hz,
          not_false_eq_true, if_true, hlen, if_false]
        decide
  · by_cases hz : a.client_secret = ""
    · simp [redact_client_secret, hz]
    · simp only [redact_client_secret, bne_iff_ne, ne_eq, hz,
        not_false_eq_true, if_true]
      decide
  · intro hlen
    have hz : a.refresh_token ≠ "" := by
      intro hcon
      rw [hcon] at hlen
      simp at hlen
    simp [redact_refresh_token, hz, hlen]
  · intro hz hlen
    have hlen' : ¬ a.refresh_token.length > 14 := by omega
    simp [redact_refresh_token, hz, hlen']
  · intro hz
    simp [redact_refresh_token, hz]
  · intro hz
    simp [redact_client_secret, hz]
  · intro hz
    simp [redact_client_secret, hz]

/-- Modelled from the spec: ConfigState (config.py is not under src/) — the
process-wide holder of the credentials of the active account and derived
session: access token, absolute expiry instant, endpoints. -/
structure GlobalConfig where
  refresh_token : String
  client_id : String
  client_secret : String
  token_endpoint : String
  access_token : Option String
  expires_at : Nat
  deriving DecidableEq

/-- Modelled from the spec: update_global_config (config.py is not under
src/) — stores the new access token, replaces the stored refresh
credential only when a rotated one is passed (auth.py passes None to mean
no rotation), and sets the expiry expires_in seconds from now. -/
def update_global_config (c : GlobalConfig) (access_token : String)
    (refresh_token : Option String) (expires_in : Nat) (now : Nat) :
    GlobalConfig :=
  { c with access_token := some access_token,
           refresh_token := refresh_token.getD c.refresh_token,
           expires_at := now + expires_in }

/-- Response of the token endpoint as read by auth.refresh_token: HTTP
status plus the three JSON fields it extracts (absent key = none). -/
structure TokenResponse where
  status : Nat
  accessToken : Option String
  refreshToken : Option String
  expiresIn : Option Nat
  deriving DecidableEq

/-- Outcome of the POST in auth.refresh_token: a transport error
(httpx.RequestError) or a response. -/
inductive HttpResult where
  | transportError
  | response (r : TokenResponse)
  deriving DecidableEq

/-- The TokenRefreshError reasons raised by auth.refresh_token. -/
inductive RefreshError where
  | transport
  | httpStatus (code : Nat)
  | missingAccessToken
  deriving DecidableEq

/-- auth.refresh_token (auth.py lines 18-93): raise_for_status rejects
every non-2xx status; a missing or empty accessToken is rejected
(Python `if not new_access_token`); the rotated refresh credential is
forwarded only when non-empty (`new_refresh_token if new_refresh_token
else None`); the lifetime falls back to 3600 when expiresIn is absent or
falsy (`int(expires_in) if expires_in else 3600`). -/
def refresh_token (c : GlobalConfig) (now : Nat) (h : HttpResult) :
    Except RefreshError GlobalConfig :=
  match h with
  | .transportError => .error .transport
  | .response r =>
    if 200 ≤ r.status ∧ r.status < 300 then
      match r.accessToken with
      | none => .error .missingAccessToken
      | some a =>
        if a == "" then .error .missingAccessToken
        else
          let newRefresh : Option String :=
            match r.refreshToken with
            | some rt => if rt == "" then none else some rt
            | none => none
          let expires : Nat :=
            match r.expiresIn with
            | some e => if e == 0 then 3600 else e
            | none => 3600
          .ok (update_global_config c a newRefresh expires now)
    else .error (.httpStatus r.status)

/-- The renewal POST request built by auth.refresh_token (auth.py lines
35-59): JSON body and headers, with the invocation id hardcoded in the
source. -/
structure HttpRequest where
  url : String
  body : List (String × String)
  headers : List (String × String)
  deriving DecidableEq

def build_refresh_request (c : GlobalConfig) : HttpRequest :=
  { url := c.token_endpoint,
    body := [("grantType", "refresh_token"),
             ("refreshToken", c.refresh_token),
             ("clientId", c.client_id),
             ("clientSecret", c.client_secret)],
    headers := [("Content-Type", "application/json"),
      ("User-Agent", "aws-sdk-rust/1.3.9 os/macos lang/rust/1.87.0"),
      ("X-Amz-User-Agent",
        "aws-sdk-rust/1.3.9 ua/2.1 api/ssooidc/1.88.0 os/macos lang/rust/1.87.0 m/E app/AmazonQ-For-CLI"),
      ("Amz-Sdk-Request", "attempt=1; max=3"),
      ("Amz-Sdk-Invocation-Id", "362523fb-ad17-428a-b3be-5a812faf0448"),
      ("Accept", "*/*"),
      ("Accept-Encoding", "gzip, deflate, br")] }

/-- Claim C8 counterexample: on a 200 response carrying accessToken
"tok2", refreshToken "" and expiresIn 0, the claim predicts that the
stored refresh credential is replaced by "" (the response carries a
refreshToken) and that the token lifetime is 0 seconds (expiresIn is
present); the code keeps the old credential "r1" and uses the 3600-second
fallback, because both response fields are Python-falsy. -/
theorem C8_counterexample :
    refresh_token
        { refresh_token := "r1", client_id := "cid", client_secret := "sec",
          token_endpoint := "url", access_token := none, expires_at := 0 }
        1000
        (HttpResult.response
          { status := 200, accessToken := some "tok2",
            refreshToken := some "", expiresIn := some 0 }) =
      Except.ok
        { refresh_token := "r1", client_id := "cid", client_secret := "sec",
          token_endpoint := "url", access_token := some "tok2",
          expires_at := 4600 } ∧
    ("r1" : String) ≠ "" ∧ (4600 : Nat) ≠ 1000 + 0 := by
  refine ⟨rfl, by decide, by decide⟩

/-- Claim C8 (amended): renew fails with TokenRefreshFailed for every
transport error, every non-2xx status, and every 2xx response whose
accessToken is absent or empty; on a 2xx response with a non-empty
accessToken it stores that token, replaces the stored refresh credential
exactly when the response carries a non-empty refreshToken, and uses a
lifetime of expiresIn seconds when expiresIn is present and non-zero,
falling back to 3600 seconds otherwise. -/
theorem C8_renewal_semantics :
    (∀ (c : GlobalConfig) (now : Nat),
        refresh_token c now .transportError = .error .transport) ∧
    (∀ (c : GlobalConfig) (now : Nat) (r : TokenResponse),
        ¬(200 ≤ r.status ∧ r.status < 300) →
        refresh_token c now (.response r) = .error (.httpStatus r.status)) ∧
    (∀ (c : GlobalConfig) (now : Nat) (r : TokenResponse),
        (200 ≤ r.status ∧ r.status < 300) →
        (r.accessToken = none ∨ r.accessToken = some "") →
        refresh_token c now (.response r) = .error .missingAccessToken) ∧
    (∀ (c : GlobalConfig) (now : Nat) (r : TokenResponse) (a : String),
        (200 ≤ r.status ∧ r.status < 300) →
        r.accessToken = some a → a ≠ "" →
        ∃ c', refresh_token c now (.response r) = .ok c' ∧
          c'.access_token = some a ∧
          c'.client_id = c.client_id ∧
          c'.client_secret = c.client_secret ∧
          c'.token_endpoint = c.token_endpoint ∧
          (∀ rt, r.refreshToken = some rt → rt ≠ "" →
            c'.refresh_token = rt) ∧
          ((r.refreshToken = none ∨ r.refreshToken = some "") →
            c'.refresh_token = c.refresh_token) ∧
          (∀ e, r.expiresIn = some e → e ≠ 0 →
            c'.expires_at = now + e) ∧
          ((r.expiresIn = none ∨ r.expiresIn = some 0) →
            c'.expires_at = now + 3600)) := by
  refine ⟨fun c now => rfl, ?_, ?_, ?_⟩
  · intro c now r hs
    simp [refresh_token, hs]
  · intro c now r hs hmiss
    cases hmiss with
    | inl h' => simp [refresh_token, hs, h']
    | inr h' => simp [refresh_token, hs, h']
  · intro c now r a hs hsome hne
    have hbeq : (a == "") = false := by simp [hne]
    refine ⟨update_global_config c a
        (match r.refreshToken with
         | some rt => if rt == "" then none else some rt
         | none => none)
        (match r.expiresIn with
         | some e => if e == 0 then 3600 else e
         | none => 3600) now,
      by simp [refresh_token, hs, hsome, hbeq], rfl, rfl, rfl, rfl,
      ?_, ?_, ?_, ?_⟩
    · intro rt hrt hrtne
      simp [update_global_config, hrt, hrtne]
    · intro hrt
      cases hrt with
      | inl h' => simp [update_global_config, h']
      | inr h' => simp [update_global_config, h']
    · intro e he hene
      simp [update_global_config, he, hene]
    · intro he
      cases he with
      | inl h' => simp [update_global_config, h']
      | inr h' => simp [update_global_config, h']

/-- Claim C9: the renewal request body carries grantType "refresh_token"
with the credential, client id and client secret of the account, and the fixed
identification headers are present — but the Amz-Sdk-Invocation-Id header
is a hardcoded constant (the `import uuid` just above it in auth.py is
unused), so any two renewal requests carry the same invocation id instead
of freshly generated ones. -/
theorem C9_fixed_invocation_id :
    (∀ c : GlobalConfig, (build_refresh_request c).body =
        [("grantType", "refresh_token"),
         ("refreshToken", c.refresh_token),
         ("clientId", c.client_id),
         ("clientSecret", c.client_secret)]) ∧
    (∀ c : GlobalConfig,
        (build_refresh_request c).headers.lookup "Amz-Sdk-Invocation-Id" =
          some "362523fb-ad17-428a-b3be-5a812faf0448") ∧
    (∀ c : GlobalConfig,
        (build_refresh_request c).headers.lookup "Content-Type" =
          some "application/json" ∧
        (build_refresh_request c).headers.lookup "Amz-Sdk-Request" =
          some "attempt=1; max=3") ∧
    (∀ c₁ c₂ : GlobalConfig,
        (build_refresh_request c₁).headers.lookup "Amz-Sdk-Invocation-Id" =
        (build_refresh_request c₂).headers.lookup "Amz-Sdk-Invocation-Id") := by
  refine ⟨fun c => rfl, fun c => rfl, ?_, fun c₁ c₂ => rfl⟩
  · intro c
    exact ⟨rfl, rfl⟩

/-- Python exception kinds arising in the renewal endpoints of main.py. -/
inductive PyErr where
  | attributeError
  | tokenRefreshError
  deriving DecidableEq

/-- The call `manager.update_refresh_status(account_id, status)` made by
main.py (lines 81/84, 381/412, 742/751).  AccountManager in
account_manager.py defines no method of this name and its Account
dataclass has no last_refresh_time or last_refresh_status field, so the
attribute access raises AttributeError unconditionally. -/
def update_refresh_status (_accounts : List Account)
    (_account_id _status : String) : Except PyErr (List Account) :=
  .error .attributeError

/-- The statement `account.is_active = False` applied to the first account
with the given id. -/
def setInactiveById : List Account → String → List Account
  | [], _ => []
  | a :: rest, i =>
    if a.id == i then { a with is_active := false } :: rest
    else a :: setInactiveById rest i

/-- Restore step of the success path of refresh_account_token (main.py
lines 383-391): clear the flag of the target, re-activate the remembered
account, or keep the target active when none was remembered. -/
def restoreAfterSuccess (accounts : List Account) (account_id : String)
    (old_active_id : Option String) : List Account :=
  let cleared := setInactiveById accounts account_id
  match old_active_id with
  | some i => setActiveById cleared i
  | none => setActiveById cleared account_id

/-- Restore step of the failure path of refresh_account_token (main.py
lines 414-421): clear the flag of the target and re-activate the remembered
account; with none remembered, nothing is re-activated. -/
def restoreAfterFailure (accounts : List Account) (account_id : String)
    (old_active_id : Option String) : List Account :=
  let cleared := setInactiveById accounts account_id
  match old_active_id with
  | some i => setActiveById cleared i
  | none => cleared

/-- HTTP outcome of the manual refresh endpoint. -/
inductive RefreshOutcome where
  | notFound
  | incomplete
  | refreshed
  | serverError (e : PyErr)
  deriving DecidableEq

/-- refresh_account_token, the manual single-account renewal endpoint
(main.py lines 342-434).  `renew_ok` abstracts whether the upstream
`await refresh_token()` call succeeds.  The bookkeeping call raised in
either branch is modelled through update_refresh_status; when it raises,
the except handler raises again at its own bookkeeping call, so the
restore code is skipped and the outer handler returns a 500 with the
working state left as is. -/
def refresh_account_token (accounts : List Account) (account_id : String)
    (renew_ok : Bool) : List Account × RefreshOutcome :=
  match get_account_by_id accounts account_id with
  | none => (accounts, .notFound)
  | some account =>
    if account.refresh_token == "" || account.client_id == "" ||
        account.client_secret == "" then
      (accounts, .incomplete)
    else
      let old_active_id :=
        ((accounts.filter (fun a => a.is_active)).getLast?).map
          (fun a => a.id)
      let working := setActiveById (deactivateAll accounts) account_id
      if renew_ok then
        match update_refresh_status working account_id "success" with
        | .ok updated =>
          (restoreAfterSuccess updated account_id old_active_id, .refreshed)
        | .error _ =>
          match update_refresh_status working account_id "failed" with
          | .ok updated =>
            (restoreAfterFailure updated account_id old_active_id,
             .serverError .attributeError)
          | .error e2 => (working, .serverError e2)
      else
        match update_refresh_status working account_id "failed" with
        | .ok updated =>
          (restoreAfterFailure updated account_id old_active_id,
           .serverError .tokenRefreshError)
        | .error e2 => (working, .serverError e2)

/-- One row of the refresh-all report. -/
structure BulkItem where
  id : String
  name : Option String
  status : String
  error : Option String
  deriving DecidableEq

/-- One complete-account iteration of the refresh-all loop (main.py lines
731-759): temporarily activate the account, renew, record bookkeeping.
Both renewal outcomes reach an update_refresh_status call; when it raises,
the per-account outer handler appends a row with status "error". -/
def refresh_all_process (state : List Account) (account : Account)
    (renew_ok : Bool) : BulkItem × List Account :=
  let working := setActiveById (deactivateAll state) account.id
  if renew_ok then
    match update_refresh_status working account.id "success" with
    | .ok updated =>
      ({ id := account.id, name := account.name, status := "success",
         error := none }, updated)
    | .error _ =>
      match update_refresh_status working account.id "failed" with
      | .ok updated =>
        ({ id := account.id, name := account.name, status := "failed",
           error := some "TokenRefreshError" }, updated)
      | .error _ =>
        ({ id := account.id, name := account.name, status := "error",
           error := some "AttributeError" }, working)
  else
    match update_refresh_status working account.id "failed" with
    | .ok updated =>
      ({ id := account.id, name := account.name, status := "failed",
         error := some "TokenRefreshError" }, updated)
    | .error _ =>
      ({ id := account.id, name := account.name, status := "error",
         error := some "AttributeError" }, working)

/-- The per-account loop of refresh_all_accounts (main.py lines 718-769).
The loop iterates the account records read at entry (only their immutable
fields are consulted) while threading the mutated active flags. -/
def refresh_all_loop (renew : String → Bool) (state : List Account) :
    List Account → List BulkItem × List Account
  | [] => ([], state)
  | account :: rest =>
    if account.refresh_token == "" || account.client_id == "" ||
        account.client_secret == "" then
      let next := refresh_all_loop renew state rest
      ({ id := account.id, name := account.name, status := "skipped",
         error := some "账号信息不完整" } :: next.fst, next.snd)
    else
      let step := refresh_all_process state account (renew account.id)
      let next := refresh_all_loop renew step.snd rest
      (step.fst :: next.fst, next.snd)

/-- refresh_all_accounts, the bulk renewal endpoint (main.py lines
690-802): remembers the first active account, runs the loop, then clears
every flag and re-activates the remembered account — or the first account
of the pool when none was remembered. -/
def refresh_all_accounts (accounts : List Account)
    (renew : String → Bool) : List Account × List BulkItem :=
  if accounts.isEmpty then (accounts, [])
  else
    let old_active_id :=
      (accounts.find? (fun a => a.is_active)).map (fun a => a.id)
    let run := refresh_all_loop renew accounts accounts
    let cleared := deactivateAll run.snd
    let restored :=
      match old_active_id with
      | some i => setActiveById cleared i
      | none => setFirstActive cleared
    (restored, run.fst)

/-- Claim C3: every bookkeeping call of the renewal paths raises
AttributeError — AccountManager has no update_refresh_status method and
Account no bookkeeping fields — so no renewal attempt ever records a
last-refresh timestamp or outcome; a manual renewal of a complete,
existing account surfaces as a 500 AttributeError response whether the
upstream renewal succeeded or failed. -/
theorem C3_bookkeeping_never_recorded :
    (∀ (accounts : List Account) (account_id status : String),
        update_refresh_status accounts account_id status =
          .error .attributeError) ∧
    (refresh_account_token
        [{ id := "a1", refresh_token := "r", client_id := "c",
           client_secret := "s", profile_arn := none, name := none,
           is_active := true, created_at := "t" }] "a1" true).snd =
      .serverError .attributeError ∧
    (refresh_account_token
        [{ id := "a1", refresh_token := "r", client_id := "c",
           client_secret := "s", profile_arn := none, name := none,
           is_active := true, created_at := "t" }] "a1" false).snd =
      .serverError .attributeError := by
  exact ⟨fun _ _ _ => rfl, rfl, rfl⟩

/-- Claim C4: with pool [A(active), B] and a manual renewal of B whose
upstream refresh succeeds, the AttributeError raised by the bookkeeping
call skips the restore step, so afterwards B is active and A is not — the
previously active account is not restored, contrary to the claim.  In the
bulk endpoint the restore loop does run (the per-account handler absorbs
the AttributeError): the previously active account is restored there, but
with no previously active account the first account of the pool is
activated, not the just-renewed one, and every complete account is
reported with status "error". -/
theorem C4_active_account_not_restored :
    ((refresh_account_token
        [{ id := "a", refresh_token := "ra", client_id := "ca",
           client_secret := "sa", profile_arn := none, name := none,
           is_active := true, created_at := "t" },
         { id := "b", refresh_token := "rb", client_id := "cb",
           client_secret := "sb", profile_arn := none, name := none,
           is_active := false, created_at := "t" }] "b" true).fst.map
        (fun acc => (acc.id, acc.is_active)) = [("a", false), ("b", true)] ∧
      (refresh_account_token
        [{ id := "a", refresh_token := "ra", client_id := "ca",
           client_secret := "sa", profile_arn := none, name := none,
           is_active := true, created_at := "t" },
         { id := "b", refresh_token := "rb", client_id := "cb",
           client_secret := "sb", profile_arn := none, name := none,
           is_active := false, created_at := "t" }] "b" true).snd =
        .serverError .attributeError) ∧
    ([(("a" : String), false), (("b" : String), true)] ≠
      [("a", true), ("b", false)]) ∧
    ((refresh_all_accounts
        [{ id := "a", refresh_token := "ra", client_id := "ca",
           client_secret := "sa", profile_arn := none, name := none,
           is_active := true, created_at := "t" },
         { id := "b", refresh_token := "rb", client_id := "cb",
           client_secret := "sb", profile_arn := none, name := none,
           is_active := false, created_at := "t" }] (fun _ => true)).fst.map
        (fun acc => (acc.id, acc.is_active)) = [("a", true), ("b", false)] ∧
      (refresh_all_accounts
        [{ id := "a", refresh_token := "ra", client_id := "ca",
           client_secret := "sa", profile_arn := none, name := none,
           is_active := true, created_at := "t" },
         { id := "b", refresh_token := "rb", client_id := "cb",
           client_secret := "sb", profile_arn := none, name := none,
           is_active := false, created_at := "t" }] (fun _ => true)).snd.map
        (fun item => item.status) = ["error", "error"]) ∧
    (refresh_all_accounts
        [{ id := "a", refresh_token := "ra", client_id := "ca",
           client_secret := "sa", profile_arn := none, name := none,
           is_active := false, created_at := "t" },
         { id := "b", refresh_token := "rb", client_id := "cb",
           client_secret := "sb", profile_arn := none, name := none,
           is_active := false, created_at := "t" }] (fun _ => true)).fst.map
        (fun acc => (acc.id, acc.is_active)) = [("a", true), ("b", false)] := by
  refine ⟨⟨rfl, rfl⟩, by decide, ⟨rfl, rfl⟩, rfl⟩

/-- One SSE event block consumed by the openai_stream re-encoder in
main.py.  A block either is skipped — it has no data line, or its data
fails JSON decoding — or it parses to a JSON object whose optional "type"
field and extracted delta text (`event_data.get("delta", {}).get("text",
"")`) drive the re-encoding. -/
inductive EventBlock where
  | skip
  | ev (type : Option String) (deltaText : String)
  deriving DecidableEq

/-- One OpenAI-flavored output chunk of openai_stream: the role
announcement, a content delta, the finish chunk (finish_reason "stop"),
or the terminal "data: [DONE]" sentinel. -/
inductive Chunk where
  | role
  | content (text : String)
  | finish
  | done
  deriving DecidableEq

/-- The role announcement emitted when `role_sent` is still false
(main.py lines 617-628). -/
def roleChunks (roleSent : Bool) : List Chunk :=
  if roleSent then [] else [Chunk.role]

/-- The chunks a single parsed event contributes after the role check
(main.py lines 630-663): one content chunk per content_block_delta with
non-empty text, one finish chunk per message_stop, nothing otherwise. -/
def bodyChunks (t : Option String) (d : String) : List Chunk :=
  if t == some "content_block_delta" then
    (if d == "" then [] else [Chunk.content d])
  else if t == some "message_stop" then [Chunk.finish]
  else []

/-- The loop of openai_stream (main.py lines 585-671), threading the
role_sent flag; the [DONE] sentinel is appended when the input ends. -/
def openaiStreamFrom (roleSent : Bool) : List EventBlock → List Chunk
  | [] => [Chunk.done]
  | .skip :: rest => openaiStreamFrom roleSent rest
  | .ev t d :: rest =>
    roleChunks roleSent ++ bodyChunks t d ++ openaiStreamFrom true rest

/-- openai_stream: re-encode the decoded backend events as OpenAI chunks. -/
def openai_stream (events : List EventBlock) : List Chunk :=
  openaiStreamFrom false events

/-- Texts of the content chunks of an output, in order. -/
def contentTexts (cs : List Chunk) : List String :=
  cs.filterMap (fun c =>
    match c with
    | .content t => some t
    | _ => none)

/-- Texts of the content_block_delta events with non-empty text, in
arrival order. -/
def deltaTexts (es : List EventBlock) : List String :=
  es.filterMap (fun e =>
    match e with
    | .ev t d =>
      if t == some "content_block_delta" && d != "" then some d else none
    | .skip => none)

/-- An event block that parses (reaches the role logic). -/
def isParsedEvent : EventBlock → Bool
  | .skip => false
  | .ev _ _ => true

/-- An event block parsed as a message_stop. -/
def isStopEvent : EventBlock → Bool
  | .ev t _ => t == some "message_stop"
  | .skip => false

theorem roleChunks_not_done (roleSent : Bool) :
    Chunk.done ∉ roleChunks roleSent := by
  cases roleSent <;> simp [roleChunks]

theorem bodyChunks_not_done (t : Option String) (d : String) :
    Chunk.done ∉ bodyChunks t d := by
  by_cases h1 : (t == some "content_block_delta") = true
  · by_cases h2 : (d == "") = true <;> simp [bodyChunks, h1, h2]
  · by_cases h3 : (t == some "message_stop") = true <;>
      simp [bodyChunks, h1, h3]

theorem roleChunks_count_role (roleSent : Bool) :
    (roleChunks roleSent).count Chunk.role =
      if roleSent then 0 else 1 := by
  cases roleSent <;> simp [roleChunks]

theorem bodyChunks_count_role (t : Option String) (d : String) :
    (bodyChunks t d).count Chunk.role = 0 := by
  by_cases h1 : (t == some "content_block_delta") = true
  · by_cases h2 : (d == "") = true <;> simp [bodyChunks, h1, h2]
  · by_cases h3 : (t == some "message_stop") = true <;>
      simp [bodyChunks, h1, h3]

theorem roleChunks_count_finish (roleSent : Bool) :
    (roleChunks roleSent).count Chunk.finish = 0 := by
  cases roleSent <;> simp [roleChunks]

theorem bodyChunks_count_finish (t : Option String) (d : String) :
    (bodyChunks t d).count Chunk.finish =
      if (t == some "message_stop") = true then 1 else 0 := by
  by_cases h1 : (t == some "content_block_delta") = true
  · have ht : t = some "content_block_delta" := by
      simpa using h1
    have h3 : (t == some "message_stop") = false := by
      simp [ht]
    by_cases h2 : (d == "") = true <;> simp [bodyChunks, h1, h2, h3]
  · by_cases h3 : (t == some "message_stop") = true <;>
      simp [bodyChunks, h1, h3]

theorem roleChunks_contentTexts (roleSent : Bool) :
    contentTexts (roleChunks roleSent) = [] := by
  cases roleSent <;> simp [roleChunks, contentTexts]

theorem bodyChunks_contentTexts (t : Option String) (d : String) :
    contentTexts (bodyChunks t d) =
      if (t == some "content_block_delta" && d != "") = true then [d]
      else [] := by
  by_cases h1 : (t == some "content_block_delta") = true
  · by_cases h2 : (d == "") = true
    · have : (d != "") = false := by
        simpa [bne] using h2
      simp [bodyChunks, h1, h2, this, contentTexts]
    · have : (d != "") = true := by
        simpa [bne] using h2
      simp [bodyChunks, h1, h2, this, contentTexts]
  · by_cases h3 : (t == some "message_stop") = true <;>
      simp [bodyChunks, contentTexts, h1, h3]

theorem contentTexts_append (l₁ l₂ : List Chunk) :
    contentTexts (l₁ ++ l₂) = contentTexts l₁ ++ contentTexts l₂ := by
  simp [contentTexts]

/-- The output always ends in exactly one [DONE] sentinel. -/
theorem openaiStreamFrom_done (es : List EventBlock) :
    ∀ roleSent : Bool, ∃ cs, openaiStreamFrom roleSent es = cs ++ [Chunk.done] ∧
      Chunk.done ∉ cs := by
  induction es with
  | nil => exact fun roleSent => ⟨[], rfl, by simp⟩
  | cons e rest ih =>
    intro roleSent
    cases e with
    | skip => simpa [openaiStreamFrom] using ih roleSent
    | ev t d =>
      obtain ⟨cs, hcs, hnd⟩ := ih true
      refine ⟨roleChunks roleSent ++ bodyChunks t d ++ cs, ?_, ?_⟩
      · simp [openaiStreamFrom, hcs]
      · intro hmem
        simp only [List.mem_append] at hmem
        rcases hmem with (h | h) | h
        · exact roleChunks_not_done roleSent h
        · exact bodyChunks_not_done t d h
        · exact hnd h

/-- Once the role has been announced, no further role chunk is emitted. -/
theorem openaiStreamFrom_role_sent (es : List EventBlock) :
    (openaiStreamFrom true es).count Chunk.role = 0 := by
  induction es with
  | nil => rfl
  | cons e rest ih =>
    cases e with
    | skip => simpa [openaiStreamFrom] using ih
    | ev t d =>
      simp [openaiStreamFrom, List.count_append, ih,
        roleChunks_count_role, bodyChunks_count_role]

/-- Role chunks emitted from the initial state: one when some event
parses, none otherwise. -/
theorem openaiStreamFrom_count_role (es : List EventBlock) :
    (openaiStreamFrom false es).count Chunk.role =
      if es.any isParsedEvent then 1 else 0 := by
  induction es with
  | nil => rfl
  | cons e rest ih =>
    cases e with
    | skip => simpa [openaiStreamFrom, isParsedEvent] using ih
    | ev t d =>
      simp [openaiStreamFrom, isParsedEvent, List.count_append,
        roleChunks_count_role, bodyChunks_count_role,
        openaiStreamFrom_role_sent]

/-- The first chunk after any parsed event is the role announcement. -/
theorem openaiStreamFrom_head (es : List EventBlock)
    (h : es.any isParsedEvent = true) :
    (openaiStreamFrom false es).head? = some Chunk.role := by
  induction es with
  | nil => simp at h
  | cons e rest ih =>
    cases e with
    | skip =>
      have h' : rest.any isParsedEvent = true := by
        simpa [isParsedEvent] using h
      simpa [openaiStreamFrom] using ih h'
    | ev t d => simp [openaiStreamFrom, roleChunks]

/-- With no parsed event the output is exactly the [DONE] sentinel. -/
theorem openaiStreamFrom_no_parsed (es : List EventBlock)
    (h : es.any isParsedEvent = false) :
    ∀ roleSent : Bool, openaiStreamFrom roleSent es = [Chunk.done] := by
  induction es with
  | nil => exact fun _ => rfl
  | cons e rest ih =>
    intro roleSent
    cases e with
    | skip =>
      have h' : rest.any isParsedEvent = false := by
        simpa [isParsedEvent] using h
      simpa [openaiStreamFrom] using ih h' roleSent
    | ev t d => simp [isParsedEvent] at h

theorem deltaTexts_cons_ev (t : Option String) (d : String)
    (rest : List EventBlock) :
    deltaTexts (EventBlock.ev t d :: rest) =
      (if (t == some "content_block_delta" && d != "") = true then [d]
       else []) ++ deltaTexts rest := by
  by_cases h1 : t = some "content_block_delta"
  · by_cases h2 : d = ""
    · simp [deltaTexts, List.filterMap_cons, h1, h2]
    · simp [deltaTexts, List.filterMap_cons, h1, h2]
  · simp [deltaTexts, List.filterMap_cons, h1]

/-- Content chunks reproduce the non-empty delta texts in order. -/
theorem openaiStreamFrom_contentTexts (es : List EventBlock) :
    ∀ roleSent : Bool,
      contentTexts (openaiStreamFrom roleSent es) = deltaTexts es := by
  induction es with
  | nil => intro roleSent; rfl
  | cons e rest ih =>
    intro roleSent
    cases e with
    | skip => simpa [openaiStreamFrom, deltaTexts] using ih roleSent
    | ev t d =>
      simp only [openaiStreamFrom, contentTexts_append,
        roleChunks_contentTexts, bodyChunks_contentTexts, ih true,
        deltaTexts_cons_ev, List.nil_append]

/-- One finish chunk per message_stop event. -/
theorem openaiStreamFrom_count_finish (es : List EventBlock) :
    ∀ roleSent : Bool,
      (openaiStreamFrom roleSent es).count Chunk.finish =
        es.countP isStopEvent := by
  induction es with
  | nil => intro roleSent; rfl
  | cons e rest ih =>
    intro roleSent
    cases e with
    | skip => simpa [openaiStreamFrom, isStopEvent] using ih roleSent
    | ev t d =>
      simp only [openaiStreamFrom, List.count_append,
        roleChunks_count_finish, bodyChunks_count_finish, ih true,
        List.countP_cons]
      by_cases hs : (t == some "message_stop") = true <;>
        simp [isStopEvent, hs] <;> omega

theorem role_mem_of_eq_append_content {l pre post : List Chunk}
    {t : String} (hhead : l.head? = some Chunk.role)
    (heq : l = pre ++ Chunk.content t :: post) : Chunk.role ∈ pre := by
  cases pre with
  | nil =>
    rw [heq] at hhead
    simp at hhead
  | cons x xs =>
    have hx : x = Chunk.role := by
      rw [heq] at hhead
      simpa using hhead
    rw [hx]
    exact List.mem_cons_self _ _

/-- Claim C2: the OpenAI-flavored re-encoding of any finite sequence of
decoded backend events emits exactly one role chunk once any event parses
— and before any content chunk — one content chunk per
content_block_delta event with non-empty text in arrival order, one
finish chunk per message_stop, and always terminates with exactly one
[DONE] sentinel; on [content_block_delta "hi", content_block_delta "!",
message_stop] the output is role, content "hi", content "!", finish,
[DONE], in that order. -/
theorem C2_openai_stream_encoding :
    (∀ es : List EventBlock, ∃ cs, openai_stream es = cs ++ [Chunk.done] ∧
        Chunk.done ∉ cs) ∧
    (∀ es : List EventBlock,
        contentTexts (openai_stream es) = deltaTexts es) ∧
    (∀ es : List EventBlock,
        (openai_stream es).count Chunk.finish = es.countP isStopEvent) ∧
    (∀ es : List EventBlock, es.any isParsedEvent = true →
        (openai_stream es).count Chunk.role = 1 ∧
        ∀ (pre : List Chunk) (t : String) (post : List Chunk),
          openai_stream es = pre ++ Chunk.content t :: post →
          Chunk.role ∈ pre) ∧
    openai_stream
        [EventBlock.ev (some "content_block_delta") "hi",
         EventBlock.ev (some "content_block_delta") "!",
         EventBlock.ev (some "message_stop") ""] =
      [Chunk.role, Chunk.content "hi", Chunk.content "!", Chunk.finish,
       Chunk.done] := by
  refine ⟨?_, ?_, ?_, ?_, by rfl⟩
  · intro es
    exact openaiStreamFrom_done es false
  · intro es
    exact openaiStreamFrom_contentTexts es false
  · intro es
    exact openaiStreamFrom_count_finish es false
  · intro es h
    refine ⟨?_, ?_⟩
    · rw [openai_stream, openaiStreamFrom_count_role, h]
      rfl
    · intro pre t post heq
      exact role_mem_of_eq_append_content (openaiStreamFrom_head es h) heq

/-- Claim C10: the role chunk is emitted on the first successfully parsed
event of any type — the head of the output is the role chunk whenever any
event parses, and the role count is exactly the indicator of a parsed
event — so [message_stop] alone yields role, finish, [DONE], while an
input with no parseable event yields only the [DONE] sentinel. -/
theorem C10_role_on_first_parsed_event :
    (∀ es : List EventBlock, es.any isParsedEvent = true →
        (openai_stream es).head? = some Chunk.role) ∧
    (∀ es : List EventBlock,
        (openai_stream es).count Chunk.role =
          if es.any isParsedEvent then 1 else 0) ∧
    (∀ es : List EventBlock, es.any isParsedEvent = false →
        openai_stream es = [Chunk.done]) ∧
    openai_stream [EventBlock.ev (some "message_stop") ""] =
      [Chunk.role, Chunk.finish, Chunk.done] ∧
    openai_stream [EventBlock.skip, EventBlock.skip] = [Chunk.done] := by
  refine ⟨?_, ?_, ?_, by rfl, by rfl⟩
  · intro es h
    exact openaiStreamFrom_head es h
  · intro es
    exact openaiStreamFrom_count_role es
  · intro es h
    exact openaiStreamFrom_no_parsed es h false

/-- The aggregation loop of the non-streaming branch of chat_completions
(main.py lines 550-557): full_text is initialized to "" and the loop body
over the response bytes is a bare `pass`, so nothing is ever collected
whatever events the backend response decodes to. -/
def collect_full_text (_events : List EventBlock) : String := ""

/-- Message content of the chat.completion object returned by the
non-streaming branch (_openai_non_streaming_response receives
full_text). -/
def nonStreamingMessageContent (events : List EventBlock) : String :=
  collect_full_text events

/-- Modelled from the spec: the aggregate a non-streaming caller must
receive — the concatenation, in arrival order, of the texts of all
decoded content-delta events. -/
def specAggregateText (events : List EventBlock) : String :=
  String.join (deltaTexts events)

/-- Claim C5: the non-streaming branch returns message content "" for
every backend response — its aggregation loop is an empty stub — so for a
response decoding to a single content delta "hi" the returned content is
"", not the concatenation "hi" the claim requires. -/
theorem C5_non_streaming_stub :
    (∀ events : List EventBlock, nonStreamingMessageContent events = "") ∧
    nonStreamingMessageContent
      [EventBlock.ev (some "content_block_delta") "hi"] = "" ∧
    specAggregateText
      [EventBlock.ev (some "content_block_delta") "hi"] = "hi" ∧
    ("" : String) ≠ "hi" := by
  refine ⟨fun _ => rfl, rfl, by rfl, by decide⟩

/-- One tool-result record of the current-turn userInputMessageContext:
the invocation id, the content entries, and the remaining fields of the
record (`status` stands for them; the merge keeps those of the first). -/
structure ToolResult where
  toolUseId : String
  content : List String
  status : String := ""
  deriving DecidableEq

/-- The inner loop of the currentMessage dedup in create_message (main.py
lines 869-877): extend the content of the first already-merged record with
the given id. -/
def extendFirstContent : List ToolResult → String → List String →
    List ToolResult
  | [], _, _ => []
  | r :: rs, i, c =>
    if r.toolUseId == i then { r with content := r.content ++ c } :: rs
    else r :: extendFirstContent rs i c

/-- The currentMessage toolResults dedup loop of create_message (main.py
lines 864-887).  The seen-id set of the source is exactly the id set of
the merged list, so membership is tested against the latter. -/
def mergeToolResultsAux (merged : List ToolResult) :
    List ToolResult → List ToolResult
  | [] => merged
  | r :: rest =>
    if (merged.map (fun s => s.toolUseId)).contains r.toolUseId then
      mergeToolResultsAux (extendFirstContent merged r.toolUseId r.content)
        rest
    else
      mergeToolResultsAux (merged ++ [r]) rest

def mergeToolResults (results : List ToolResult) : List ToolResult :=
  mergeToolResultsAux [] results

/-- A record extended with all later content entries carrying its id, in
their original order. -/
def extendBy (rest : List ToolResult) (r : ToolResult) : ToolResult :=
  { r with content := r.content ++
      ((rest.filter (fun s => s.toolUseId == r.toolUseId)).map
        (fun s => s.content)).join }

/-- Modelled from the spec: group tool-result records by invocation id —
keep the first record of each id, append the content of later records
entries onto it preserving order, one output record per id. -/
def groupToolResultsSpec : List ToolResult → List ToolResult
  | [] => []
  | r :: rest =>
    extendBy rest r ::
      groupToolResultsSpec
        (rest.filter (fun s => s.toolUseId != r.toolUseId))
termination_by l => l.length
decreasing_by
  simp only [List.length_cons]
  exact Nat.lt_succ_of_le (List.length_filter_le _ rest)

theorem groupToolResultsSpec_cons (r : ToolResult) (rest : List ToolResult) :
    groupToolResultsSpec (r :: rest) =
      extendBy rest r ::
        groupToolResultsSpec
          (rest.filter (fun s => s.toolUseId != r.toolUseId)) := by
  rw [groupToolResultsSpec]

theorem extendBy_nil (r : ToolResult) : extendBy [] r = r := by
  simp [extendBy]

theorem extendBy_toolUseId (rest : List ToolResult) (r : ToolResult) :
    (extendBy rest r).toolUseId = r.toolUseId := rfl

theorem extendFirstContent_ids (i : String) (c : List String) :
    ∀ l : List ToolResult,
      (extendFirstContent l i c).map (fun s => s.toolUseId) =
        l.map (fun s => s.toolUseId) := by
  intro l
  induction l with
  | nil => rfl
  | cons r rs ih =>
    by_cases hr : (r.toolUseId == i) = true
    · simp [extendFirstContent, hr]
    · simp [extendFirstContent, hr, ih]

theorem filter_filter_of_imp {α : Type} (P Q : α → Bool) (l : List α)
    (h : ∀ a, Q a = true → P a = true) :
    (l.filter P).filter Q = l.filter Q := by
  induction l with
  | nil => rfl
  | cons x xs ih =>
    by_cases hq : Q x = true
    · have hp := h x hq
      simp [List.filter_cons, hp, hq, ih]
    · by_cases hp : P x = true <;> simp [List.filter_cons, hp, hq, ih]

/-- Extending the first matching record commutes with the per-record
extension by later entries: absorbing record `r` into a merged list with
distinct ids is the same as counting `r` among the later entries. -/
theorem extendFirstContent_map_extendBy (r : ToolResult)
    (rest : List ToolResult) :
    ∀ merged : List ToolResult,
      (merged.map (fun s => s.toolUseId)).Nodup →
      (extendFirstContent merged r.toolUseId r.content).map
          (extendBy rest) =
        merged.map (extendBy (r :: rest)) := by
  intro merged
  induction merged with
  | nil => intro _; rfl
  | cons m ms ih =>
    intro hnd
    rw [List.map_cons, List.nodup_cons] at hnd
    have hnotin : m.toolUseId ∉ ms.map (fun s => s.toolUseId) := hnd.1
    have hnd' : (ms.map (fun s => s.toolUseId)).Nodup := hnd.2
    by_cases hm : (m.toolUseId == r.toolUseId) = true
    · have hmr : m.toolUseId = r.toolUseId := by simpa using hm
      have hrm : (r.toolUseId == m.toolUseId) = true := by
        simp [hmr]
      have htail : ms.map (extendBy rest) = ms.map (extendBy (r :: rest)) := by
        apply List.map_congr_left
        intro x hx
        have hxr : (r.toolUseId == x.toolUseId) = false := by
          have : x.toolUseId ≠ m.toolUseId := by
            intro hcon
            exact hnotin (by
              simpa [hcon] using List.mem_map_of_mem
                (fun s => s.toolUseId) hx)
          simp [← hmr]
          intro hcon
          exact this hcon.symm
        simp [extendBy, List.filter_cons, hxr]
      simp only [extendFirstContent, hm, if_true, List.map_cons, htail]
      congr 1
      simp [extendBy, List.filter_cons, hrm, List.append_assoc]
    · have hrm : (r.toolUseId == m.toolUseId) = false := by
        simp
        intro hcon
        simp [hcon] at hm
      have hhead : extendBy rest m = extendBy (r :: rest) m := by
        simp [extendBy, List.filter_cons, hrm]
      simp only [extendFirstContent, hm, if_false, List.map_cons, ih hnd',
        Bool.false_eq_true]
      rw [hhead]

/-- The merge loop, started from any merged prefix with distinct ids,
produces that prefix extended by matching later entries followed by the
spec grouping of the genuinely new records. -/
theorem mergeToolResultsAux_eq (rest : List ToolResult) :
    ∀ merged : List ToolResult,
      (merged.map (fun s => s.toolUseId)).Nodup →
      mergeToolResultsAux merged rest =
        merged.map (extendBy rest) ++
          groupToolResultsSpec (rest.filter (fun s =>
            !((merged.map (fun x => x.toolUseId)).contains s.toolUseId))) := by
  induction rest with
  | nil =>
    intro merged _
    have hmapid : ∀ l : List ToolResult, l.map (extendBy []) = l := by
      intro l
      induction l with
      | nil => rfl
      | cons m ms ihm => simp [extendBy_nil, ihm]
    simp [mergeToolResultsAux, groupToolResultsSpec, hmapid]
  | cons r rest' ih =>
    intro merged hnd
    by_cases hc :
        ((merged.map (fun x => x.toolUseId)).contains r.toolUseId) = true
    · have hids := extendFirstContent_ids r.toolUseId r.content merged
      have hnd2 :
          ((extendFirstContent merged r.toolUseId r.content).map
            (fun s => s.toolUseId)).Nodup := by
        rw [hids]; exact hnd
      have hstep := ih _ hnd2
      rw [hids] at hstep
      have hpr :
          (!((merged.map (fun x => x.toolUseId)).contains r.toolUseId)) =
            false := by
        rw [hc]; rfl
      have hfilter :
          (r :: rest').filter (fun s =>
              !((merged.map (fun x => x.toolUseId)).contains s.toolUseId)) =
            rest'.filter (fun s =>
              !((merged.map (fun x => x.toolUseId)).contains s.toolUseId)) := by
        rw [List.filter_cons, hpr]
        simp
      simp only [mergeToolResultsAux, hc, if_true, hstep, hfilter,
        extendFirstContent_map_extendBy r rest' merged hnd]
    · have hcf :
          ((merged.map (fun x => x.toolUseId)).contains r.toolUseId) = false := by
        simpa using hc
      have hnotin : r.toolUseId ∉ merged.map (fun x => x.toolUseId) := by
        simpa using hc
      have hnd2 :
          (((merged ++ [r]).map (fun s => s.toolUseId))).Nodup := by
        rw [List.map_append]
        apply List.Nodup.append hnd (List.nodup_singleton _)
        intro x hx hx2
        simp only [List.map_cons, List.map_nil, List.mem_singleton] at hx2
        subst hx2
        exact hnotin hx
      have hstep := ih _ hnd2
      have hmap : (merged ++ [r]).map (extendBy rest') =
          merged.map (extendBy rest') ++ [extendBy rest' r] := by
        simp
      have hmergedmap :
          merged.map (extendBy rest') = merged.map (extendBy (r :: rest')) := by
        apply List.map_congr_left
        intro x hx
        have hxr : (r.toolUseId == x.toolUseId) = false := by
          simp
          intro hcon
          exact hnotin (by
            simpa [hcon] using List.mem_map_of_mem (fun s => s.toolUseId) hx)
        simp [extendBy, List.filter_cons, hxr]
      have hpr :
          (!((merged.map (fun x => x.toolUseId)).contains r.toolUseId)) =
            true := by
        rw [hcf]; rfl
      have hfilter :
          (r :: rest').filter (fun s =>
              !((merged.map (fun x => x.toolUseId)).contains s.toolUseId)) =
            r :: rest'.filter (fun s =>
              !((merged.map (fun x => x.toolUseId)).contains s.toolUseId)) := by
        rw [List.filter_cons, hpr]
        simp
      have hff : (rest'.filter (fun s =>
            !((merged.map (fun x => x.toolUseId)).contains s.toolUseId))).filter
            (fun s => s.toolUseId == r.toolUseId) =
          rest'.filter (fun s => s.toolUseId == r.toolUseId) := by
        apply filter_filter_of_imp
        intro s hs
        have hsr : s.toolUseId = r.toolUseId := by simpa using hs
        rw [hsr, hcf]
        rfl
      have hhead : extendBy (rest'.filter (fun s =>
          !((merged.map (fun x => x.toolUseId)).contains s.toolUseId))) r =
          extendBy rest' r := by
        simp only [extendBy, hff]
      have htail :
          (rest'.filter (fun s =>
              !((merged.map (fun x => x.toolUseId)).contains s.toolUseId))).filter
            (fun s => s.toolUseId != r.toolUseId) =
          rest'.filter (fun s =>
            !(((merged ++ [r]).map (fun x => x.toolUseId)).contains
              s.toolUseId)) := by
        rw [List.filter_filter]
        apply List.filter_congr
        intro s _
        simp only [List.map_append, List.map_cons, List.map_nil,
          List.contains_eq_any_beq, List.any_append, List.any_cons,
          List.any_nil, Bool.or_false, Bool.not_or, bne, Bool.and_comm]
      rw [mergeToolResultsAux]
      simp only [hcf, Bool.false_eq_true, if_false]
      rw [hstep, hmap, hmergedmap, hfilter, groupToolResultsSpec_cons,
        hhead, htail, List.append_assoc]
      rfl

theorem mergeToolResults_eq_spec (results : List ToolResult) :
    mergeToolResults results = groupToolResultsSpec results := by
  have h := mergeToolResultsAux_eq results [] (by simp)
  simpa [mergeToolResults, List.filter_true] using h

/-- Id distinctness and id provenance of the spec grouping, by induction
on a length bound. -/
theorem groupToolResultsSpec_ids (n : Nat) :
    ∀ l : List ToolResult, l.length ≤ n →
      ((groupToolResultsSpec l).map (fun s => s.toolUseId)).Nodup ∧
      ∀ x, x ∈ (groupToolResultsSpec l).map (fun s => s.toolUseId) →
        x ∈ l.map (fun s => s.toolUseId) := by
  induction n with
  | zero =>
    intro l hl
    have : l = [] := List.eq_nil_of_length_eq_zero (Nat.le_zero.mp hl)
    subst this
    exact ⟨by simp [groupToolResultsSpec], by simp [groupToolResultsSpec]⟩
  | succ n ih =>
    intro l hl
    cases l with
    | nil => exact ⟨by simp [groupToolResultsSpec], by simp [groupToolResultsSpec]⟩
    | cons r rest =>
      have hlen : (rest.filter
          (fun s => s.toolUseId != r.toolUseId)).length ≤ n := by
        have h1 := List.length_filter_le
          (fun s => s.toolUseId != r.toolUseId) rest
        have h2 : rest.length ≤ n := by simpa using hl
        omega
      obtain ⟨hnd, hsub⟩ := ih _ hlen
      rw [groupToolResultsSpec_cons]
      constructor
      · simp only [List.map_cons, extendBy_toolUseId, List.nodup_cons]
        refine ⟨?_, hnd⟩
        intro hmem
        have hx := hsub _ hmem
        simp only [List.mem_map] at hx
        obtain ⟨s, hs, hsid⟩ := hx
        have := List.of_mem_filter hs
        rw [hsid] at this
        simp at this
      · intro x hx
        simp only [List.map_cons, extendBy_toolUseId, List.mem_cons] at hx
        cases hx with
        | inl h' => simp [h']
        | inr h' =>
          have hx2 := hsub _ h'
          simp only [List.mem_map] at hx2
          obtain ⟨s, hs, hsid⟩ := hx2
          have hsrest := List.mem_of_mem_filter hs
          simp only [List.map_cons, List.mem_cons, List.mem_map]
          exact Or.inr ⟨s, hsrest, hsid⟩

/-- Claim C6: the current-turn tool-result dedup groups records by
invocation id — the first record of each id is kept (its other fields
included), content entries of later records are appended in original order,
and each id occurs exactly once in the output; in particular
[(t1, [X]), (t1, [Y])] merges to [(t1, [X, Y])]. -/
theorem C6_tool_result_dedup :
    (∀ results : List ToolResult,
        mergeToolResults results = groupToolResultsSpec results) ∧
    (∀ results : List ToolResult,
        ((mergeToolResults results).map (fun s => s.toolUseId)).Nodup) ∧
    mergeToolResults
      [{ toolUseId := "t1", content := ["X"], status := "s1" },
       { toolUseId := "t1", content := ["Y"], status := "s2" }] =
      [{ toolUseId := "t1", content := ["X", "Y"], status := "s1" }] := by
  refine ⟨mergeToolResults_eq_spec, ?_, by rfl⟩
  intro results
  rw [mergeToolResults_eq_spec]
  exact (groupToolResultsSpec_ids results.length results le_rfl).1

end Amq2Api
